import Mathlib

/-!
Verification of the aria-mark Document URL Encoding subsystem.

The embedding follows `src/shared/compression.ts` (the codec:
`encodeContent`, `decodeContent`, `parseContentData`) and the budget
tracking inside the `Editor` component (`saveToUrl`, `URL_CHAR_LIMIT`,
and the four-band usage badge).

External JavaScript builtins that the codec calls are modelled as
executable Lean functions:
  * UTF-8 (`TextEncoder` / `Buffer.from(_, 'utf-8')`) is real UTF-8 over
    Lean `Char` scalar values; the decoder is total (the JS decoders
    substitute replacement characters instead of throwing).
  * gzip (`zlib.gzipSync` / `CompressionStream('gzip')`) is modelled as an
    injective framing codec: the compressed stream is the payload behind
    the two gzip magic-number bytes 31, 139, and decompression rejects a
    stream that does not carry that header.
  * base64 (`Buffer.toString('base64')` / `btoa`, and `Buffer.from(_,
    'base64')` / `atob`) is real RFC 4648 base64 with padding; decoding is
    partial and fails on strings outside the encoder's image.
  * `JSON.stringify` / `JSON.parse` are a real printer and recursive
    descent parser over a `Json` value type (numbers are modelled as
    integers, which is enough for every property considered here).
-/

namespace AriaMark

/-- Runtime JSON values.  `JSON.parse` in JavaScript is untyped, so the
fields recovered by `parseContentData` can be arbitrary JSON values at
run time even though the TypeScript interface declares strings. -/
inductive Json where
  | null : Json
  | bool (b : Bool) : Json
  | num (n : Int) : Json
  | str (s : String) : Json
  | arr (elems : List Json) : Json
  | obj (members : List (String × Json)) : Json
deriving Repr

/-! ## UTF-8 (model of TextEncoder / TextDecoder / Buffer utf-8) -/

/-- UTF-8 encoding of a single Unicode scalar value. -/
def utf8EncodeChar (n : Nat) : List Nat :=
  if n < 0x80 then [n]
  else if n < 0x800 then [0xC0 + n / 64, 0x80 + n % 64]
  else if n < 0x10000 then
    [0xE0 + n / 4096, 0x80 + (n / 64) % 64, 0x80 + n % 64]
  else
    [0xF0 + n / 262144, 0x80 + (n / 4096) % 64, 0x80 + (n / 64) % 64, 0x80 + n % 64]

/-- UTF-8 encoding of a character sequence. -/
def utf8EncodeList : List Char → List Nat
  | [] => []
  | c :: cs => utf8EncodeChar c.toNat ++ utf8EncodeList cs

/-- UTF-8 encoding of a string (`new TextEncoder().encode`,
`Buffer.from(s, 'utf-8')`). -/
def utf8Encode (s : String) : List Nat := utf8EncodeList s.data

/-- The Unicode replacement character emitted by lenient decoders. -/
def replacementChar : Char := Char.ofNat 0xFFFD

/-- Streaming UTF-8 decoder: `pending` counts the continuation bytes
still expected for the current sequence and `acc` holds the partial
codepoint.  Malformed bytes yield the replacement character, as in
`TextDecoder` and `Buffer.toString('utf-8')` (resynchronisation after a
malformed sequence is approximate, which only affects inputs outside the
encoder's image). -/
def utf8DecodeAux : List Nat → Nat → Nat → List Char
  | [], pending, _ => if pending = 0 then [] else [replacementChar]
  | b :: rest, pending, acc =>
    if pending = 0 then
      if b < 0x80 then Char.ofNat b :: utf8DecodeAux rest 0 0
      else if b < 0xC0 then replacementChar :: utf8DecodeAux rest 0 0
      else if b < 0xE0 then utf8DecodeAux rest 1 (b - 0xC0)
      else if b < 0xF0 then utf8DecodeAux rest 2 (b - 0xE0)
      else if b < 0xF8 then utf8DecodeAux rest 3 (b - 0xF0)
      else replacementChar :: utf8DecodeAux rest 0 0
    else
      if 0x80 ≤ b ∧ b < 0xC0 then
        if pending = 1 then Char.ofNat (acc * 64 + (b - 0x80)) :: utf8DecodeAux rest 0 0
        else utf8DecodeAux rest (pending - 1) (acc * 64 + (b - 0x80))
      else replacementChar :: utf8DecodeAux rest 0 0

/-- Total UTF-8 decoding of a byte sequence. -/
def utf8DecodeList (l : List Nat) : List Char := utf8DecodeAux l 0 0

/-- UTF-8 decoding to a string. -/
def utf8DecodeStr (l : List Nat) : String := String.mk (utf8DecodeList l)

/-! ## gzip (model of zlib gzipSync/gunzipSync and the streams API) -/

/-- Model of the gzip byte codec: an injective framing that prepends the
gzip magic-number bytes `0x1f 0x8b`. -/
def gzipCompress (bytes : List Nat) : List Nat := 31 :: 139 :: bytes

/-- Model of gzip decompression: rejects any stream that does not start
with the gzip magic number, as `gunzipSync` / `DecompressionStream` do. -/
def gzipDecompress : List Nat → Option (List Nat)
  | 31 :: 139 :: rest => some rest
  | _ => none

/-! ## base64 (RFC 4648 with padding) -/

/-- The base64 alphabet character for a 6-bit value. -/
def b64Char (n : Nat) : Char :=
  if n < 26 then Char.ofNat (65 + n)
  else if n < 52 then Char.ofNat (97 + n - 26)
  else if n < 62 then Char.ofNat (48 + n - 52)
  else if n = 62 then Char.ofNat 43
  else Char.ofNat 47

/-- The 6-bit value of a base64 alphabet character. -/
def b64Val (c : Char) : Option Nat :=
  let n := c.toNat
  if 65 ≤ n ∧ n ≤ 90 then some (n - 65)
  else if 97 ≤ n ∧ n ≤ 122 then some (n - 71)
  else if 48 ≤ n ∧ n ≤ 57 then some (n + 4)
  else if n = 43 then some 62
  else if n = 47 then some 63
  else none

/-- Base64 encoding of a byte list, three bytes per four characters,
padded with `=`. -/
def b64EncodeList : List Nat → List Char
  | [] => []
  | [a] => [b64Char (a / 4), b64Char (a % 4 * 16), Char.ofNat 61, Char.ofNat 61]
  | [a, b] => [b64Char (a / 4), b64Char (a % 4 * 16 + b / 16), b64Char (b % 16 * 4), Char.ofNat 61]
  | a :: b :: c :: rest =>
    b64Char (a / 4) :: b64Char (a % 4 * 16 + b / 16) :: b64Char (b % 16 * 4 + c / 64) ::
      b64Char (c % 64) :: b64EncodeList rest

/-- Base64 decoding of a character list; fails outside the encoder's
image. -/
def b64DecodeList : List Char → Option (List Nat)
  | [] => some []
  | c1 :: c2 :: c3 :: c4 :: rest =>
    match b64Val c1, b64Val c2 with
    | some s1, some s2 =>
      if c3 = Char.ofNat 61 then
        if c4 = Char.ofNat 61 ∧ rest = [] then some [s1 * 4 + s2 / 16] else none
      else
        match b64Val c3 with
        | some s3 =>
          if c4 = Char.ofNat 61 then
            if rest = [] then some [s1 * 4 + s2 / 16, s2 % 16 * 16 + s3 / 4] else none
          else
            match b64Val c4 with
            | some s4 =>
              (b64DecodeList rest).map
                (fun bs => (s1 * 4 + s2 / 16) :: (s2 % 16 * 16 + s3 / 4) :: (s3 % 4 * 64 + s4) :: bs)
            | none => none
        | none => none
    | _, _ => none
  | _ => none

/-- Base64 encoding to a string (`Buffer.toString('base64')`, and the
`btoa` result in the browser branch). -/
def base64Encode (bytes : List Nat) : String := String.mk (b64EncodeList bytes)

/-- Base64 decoding from a string (`Buffer.from(s, 'base64')` modelled
strictly). -/
def base64Decode (s : String) : Option (List Nat) := b64DecodeList s.data

/-- The browser "binary string" built from compressed bytes with
`String.fromCharCode`. -/
def binaryStringOfBytes (bytes : List Nat) : String :=
  String.mk (bytes.map Char.ofNat)

/-- Browser `btoa`: fails when a character exceeds one byte, otherwise
base64 of the character codes. -/
def btoa (s : String) : Option String :=
  if s.data.all (fun c => decide (c.toNat < 256)) then
    some (String.mk (b64EncodeList (s.data.map Char.toNat)))
  else none

/-- Browser `atob`: base64 decoding to a binary string. -/
def atob (s : String) : Option String :=
  (b64DecodeList s.data).map (fun bs => String.mk (bs.map Char.ofNat))

/-! ## JSON.stringify -/

/-- Opening curly brace character. -/
def braceOpen : Char := Char.ofNat 123

/-- Closing curly brace character. -/
def braceClose : Char := Char.ofNat 125

/-- Lowercase hexadecimal digit. -/
def hexDigitChar (n : Nat) : Char :=
  Char.ofNat (if n < 10 then 48 + n else 87 + n)

/-- The escape sequence `JSON.stringify` emits for one character of a
string value: `"`, `\`, and the named control characters get two-character
escapes, the remaining control characters get `\u00XX`, and everything
else is emitted verbatim. -/
def jsonEscapeChar (c : Char) : List Char :=
  if c = '"' then ['\\', '"']
  else if c = '\\' then ['\\', '\\']
  else if c = '\n' then ['\\', 'n']
  else if c = '\r' then ['\\', 'r']
  else if c = '\t' then ['\\', 't']
  else if c = Char.ofNat 8 then ['\\', 'b']
  else if c = Char.ofNat 12 then ['\\', 'f']
  else if c.toNat < 32 then
    ['\\', 'u', '0', '0', hexDigitChar (c.toNat / 16), hexDigitChar (c.toNat % 16)]
  else [c]

/-- Escaping of a whole character sequence. -/
def jsonEscapeList : List Char → List Char
  | [] => []
  | c :: cs => jsonEscapeChar c ++ jsonEscapeList cs

/-- A JSON string literal: the escaped characters between double quotes. -/
def jsonQuoteList (cs : List Char) : List Char :=
  '"' :: (jsonEscapeList cs ++ ['"'])

/-- `JSON.stringify({content: text, mode})`: the serialized two-field
record, keys in insertion order, no whitespace. -/
def jsonStringifyContentData (text mode : String) : String :=
  String.mk (braceOpen :: (jsonQuoteList "content".data ++ (':' ::
    (jsonQuoteList text.data ++ (',' :: (jsonQuoteList "mode".data ++ (':' ::
      (jsonQuoteList mode.data ++ [braceClose]))))))))

/-! ## JSON.parse -/

/-- Skip JSON whitespace. -/
def skipWs : List Char → List Char
  | [] => []
  | c :: r =>
    if c = ' ' ∨ c = '\t' ∨ c = '\n' ∨ c = '\r' then skipWs r else c :: r

/-- Value of a hexadecimal digit character. -/
def hexCharVal (c : Char) : Option Nat :=
  let n := c.toNat
  if 48 ≤ n ∧ n ≤ 57 then some (n - 48)
  else if 97 ≤ n ∧ n ≤ 102 then some (n - 87)
  else if 65 ≤ n ∧ n ≤ 70 then some (n - 55)
  else none

/-- The character denoted by a two-character escape sequence. -/
def jsonUnescapeChar (e : Char) : Option Char :=
  if e = '"' then some '"'
  else if e = '\\' then some '\\'
  else if e = '/' then some '/'
  else if e = 'b' then some (Char.ofNat 8)
  else if e = 'f' then some (Char.ofNat 12)
  else if e = 'n' then some '\n'
  else if e = 'r' then some '\r'
  else if e = 't' then some '\t'
  else none

/-- Streaming parser for the body of a JSON string literal (the opening
quote already consumed).  `st` is the lexer state: `0` ordinary
characters, `1` just after a backslash, and `2`–`5` inside a `\uXXXX`
escape expecting the remaining hex digits, with `acc` the accumulated
value.  Returns the decoded characters and the remaining input. -/
def parseJsonStringAux : List Char → Nat → Nat → Option (List Char × List Char)
  | [], _, _ => none
  | c :: rest, st, acc =>
    if st = 0 then
      if c = '"' then some ([], rest)
      else if c = '\\' then parseJsonStringAux rest 1 0
      else (parseJsonStringAux rest 0 0).map (fun p => (c :: p.1, p.2))
    else if st = 1 then
      if c = 'u' then parseJsonStringAux rest 2 0
      else
        match jsonUnescapeChar c with
        | some u => (parseJsonStringAux rest 0 0).map (fun p => (u :: p.1, p.2))
        | none => none
    else
      match hexCharVal c with
      | some d =>
        if st = 5 then
          (parseJsonStringAux rest 0 0).map
            (fun p => (Char.ofNat (acc * 16 + d) :: p.1, p.2))
        else parseJsonStringAux rest (st + 1) (acc * 16 + d)
      | none => none

/-- Parse the body of a JSON string literal. -/
def parseJsonString (l : List Char) : Option (List Char × List Char) :=
  parseJsonStringAux l 0 0

/-- Is the character a decimal digit? -/
def isDigitChar (c : Char) : Bool := decide (48 ≤ c.toNat ∧ c.toNat ≤ 57)

/-- Accumulate a run of decimal digits. -/
def parseDigitsAux : List Char → Nat → Nat × List Char
  | [], acc => (acc, [])
  | c :: r, acc =>
    if isDigitChar c then parseDigitsAux r (acc * 10 + (c.toNat - 48)) else (acc, c :: r)

/-- Parse an unsigned JSON integer: the input must start with a digit. -/
def parseJsonNumberPos : List Char → Option (Nat × List Char)
  | [] => none
  | c :: r =>
    if isDigitChar c then
      let p := parseDigitsAux r (c.toNat - 48)
      some (p.1, p.2)
    else none

/-- Parse a JSON number (modelled as an integer). -/
def parseJsonNumber (l : List Char) : Option (Int × List Char) :=
  match l with
  | [] => none
  | c :: r =>
    if c = '-' then (parseJsonNumberPos r).map (fun p => (-(p.1 : Int), p.2))
    else (parseJsonNumberPos (c :: r)).map (fun p => ((p.1 : Int), p.2))

mutual

/-- Recursive descent parser for a JSON value; `fuel` bounds the nesting
depth and only decreases on recursion into substructures, so any fuel
larger than the input length is enough. -/
def parseJsonValue : Nat → List Char → Option (Json × List Char)
  | 0, _ => none
  | fuel + 1, input =>
    match skipWs input with
    | [] => none
    | c :: r =>
      if c = braceOpen then
        match skipWs r with
        | [] => none
        | c2 :: r2 =>
          if c2 = braceClose then some (.obj [], r2)
          else (parseJsonMembers fuel (c2 :: r2)).map (fun p => (.obj p.1, p.2))
      else if c = '[' then
        match skipWs r with
        | [] => none
        | c2 :: r2 =>
          if c2 = ']' then some (.arr [], r2)
          else (parseJsonElems fuel (c2 :: r2)).map (fun p => (.arr p.1, p.2))
      else if c = '"' then
        (parseJsonString r).map (fun p => (.str (String.mk p.1), p.2))
      else if c = 'n' then
        match r with
        | 'u' :: 'l' :: 'l' :: r2 => some (.null, r2)
        | _ => none
      else if c = 't' then
        match r with
        | 'r' :: 'u' :: 'e' :: r2 => some (.bool true, r2)
        | _ => none
      else if c = 'f' then
        match r with
        | 'a' :: 'l' :: 's' :: 'e' :: r2 => some (.bool false, r2)
        | _ => none
      else (parseJsonNumber (c :: r)).map (fun p => (.num p.1, p.2))

/-- Parse the comma-separated elements of a non-empty JSON array,
consuming the closing bracket. -/
def parseJsonElems : Nat → List Char → Option (List Json × List Char)
  | 0, _ => none
  | fuel + 1, input =>
    match parseJsonValue fuel input with
    | some (v, rest) =>
      match skipWs rest with
      | [] => none
      | c :: r2 =>
        if c = ',' then (parseJsonElems fuel r2).map (fun p => (v :: p.1, p.2))
        else if c = ']' then some ([v], r2)
        else none
    | none => none

/-- Parse the comma-separated members of a non-empty JSON object,
consuming the closing brace. -/
def parseJsonMembers : Nat → List Char → Option (List (String × Json) × List Char)
  | 0, _ => none
  | fuel + 1, input =>
    match skipWs input with
    | [] => none
    | c :: r =>
      if c = '"' then
        match parseJsonString r with
        | some (key, rest) =>
          match skipWs rest with
          | [] => none
          | c2 :: r2 =>
            if c2 = ':' then
              match parseJsonValue fuel r2 with
              | some (v, rest2) =>
                match skipWs rest2 with
                | [] => none
                | c3 :: r3 =>
                  if c3 = ',' then
                    (parseJsonMembers fuel r3).map (fun p => ((String.mk key, v) :: p.1, p.2))
                  else if c3 = braceClose then some ([(String.mk key, v)], r3)
                  else none
              | none => none
            else none
        | none => none
      else none

end

/-- `JSON.parse`: parse a complete JSON document, allowing surrounding
whitespace, rejecting trailing input.  The fuel `length + 4` can never be
exhausted on real input since every nesting level consumes a character. -/
def jsonParse (s : String) : Option Json :=
  match parseJsonValue (s.data.length + 4) s.data with
  | some (v, rest) => if skipWs rest = [] then some v else none
  | none => none

/-! ## src/shared/compression.ts -/

/-- The record produced by `parseContentData` / `decodeContent`.  The
TypeScript interface declares `content: string` and
`mode: 'edit' | 'live' | 'view'`, but `parseContentData` builds the
record from untyped `JSON.parse` output, so at run time the fields hold
arbitrary JSON values; the embedding keeps the run-time typing. -/
structure ContentData where
  content : Json
  mode : Json
deriving Repr

/-- The wire names of the preview modes (`PreviewMode`). -/
def isPreviewMode (m : String) : Prop :=
  m = "edit" ∨ m = "live" ∨ m = "view"

/-- The canonical empty Edit-mode document. -/
def emptyContentData : ContentData := ⟨Json.str "", Json.str "edit"⟩

/-- JavaScript truthiness of a JSON value. -/
def jsTruthy : Json → Bool
  | .null => false
  | .bool b => b
  | .num n => decide (n ≠ 0)
  | .str s => decide (s ≠ "")
  | .arr _ => true
  | .obj _ => true

/-- The JavaScript expression `v || dflt` applied to a possibly absent
object property. -/
def jsOrDefault (v : Option Json) (dflt : Json) : Json :=
  match v with
  | some x => if jsTruthy x then x else dflt
  | none => dflt

/-- Does `typeof data === 'object'` hold?  True for objects, arrays and
null. -/
def typeofIsObject : Json → Bool
  | .null => true
  | .arr _ => true
  | .obj _ => true
  | _ => false

/-- Is the value JSON null? -/
def isJsonNull : Json → Bool
  | .null => true
  | _ => false

/-- The JavaScript test `'content' in data` on a parsed JSON value:
only objects can carry a string-named own property (a parsed array's own
properties are its indices). -/
def hasProp (k : String) : Json → Bool
  | .obj members => members.any (fun p => p.1 == k)
  | _ => false

/-- Property read `data[k]` on a parsed JSON object; with duplicate keys
`JSON.parse` keeps the last occurrence. -/
def getProp (k : String) : Json → Option Json
  | .obj members => members.foldl (fun acc p => if p.1 == k then some p.2 else acc) none
  | _ => none

/-- `parseContentData` from `compression.ts`: parse the decompressed text
as JSON; an object exposing a `content` property yields
`{content: data.content || '', mode: data.mode || 'edit'}`; anything else
(parse failure, or a parse to a non-record) is the legacy path that
returns the text itself as content with mode `edit`. -/
def parseContentData (jsonString : String) : ContentData :=
  match jsonParse jsonString with
  | some data =>
    if typeofIsObject data && !isJsonNull data && hasProp "content" data then
      { content := jsOrDefault (getProp "content" data) (Json.str "")
        mode := jsOrDefault (getProp "mode" data) (Json.str "edit") }
    else ⟨Json.str jsonString, Json.str "edit"⟩
  | none => ⟨Json.str jsonString, Json.str "edit"⟩

/-- The `try`-block body of `encodeContent`: serialize the record, UTF-8
encode, gzip, base64 — through the zlib branch when `isTerminal` is true
and through the `CompressionStream`/`btoa` branch otherwise. -/
def encodeAttempt (isTerminal : Bool) (text mode : String) : Option String :=
  let jsonString := jsonStringifyContentData text mode
  if isTerminal then
    some (base64Encode (gzipCompress (utf8Encode jsonString)))
  else
    btoa (binaryStringOfBytes (gzipCompress (utf8Encode jsonString)))

/-- The `catch` clause of `encodeContent`: a failed attempt is swallowed
and the empty token returned in its place. -/
def swallowEncodeFailure (attempt : Option String) : String :=
  attempt.getD ""

/-- `encodeContent` from `compression.ts`: the canonical empty Edit-mode
document short-circuits to the empty token; otherwise the attempt runs
under the failure-swallowing catch. -/
def encodeContent (isTerminal : Bool) (text : String) (mode : String) : String :=
  if text = "" ∧ mode = "edit" then ""
  else swallowEncodeFailure (encodeAttempt isTerminal text mode)

/-- The `try`-block body of `decodeContent` up to the decompressed text:
base64 decode, gunzip, UTF-8 decode, in the zlib branch or the
`atob`/`DecompressionStream` branch. -/
def decodeAttempt (isTerminal : Bool) (encoded : String) : Option String :=
  if isTerminal then
    match base64Decode encoded with
    | some compressed =>
      match gzipDecompress compressed with
      | some decompressed => some (utf8DecodeStr decompressed)
      | none => none
    | none => none
  else
    match atob encoded with
    | some binaryString =>
      match gzipDecompress (binaryString.data.map Char.toNat) with
      | some bytes => some (utf8DecodeStr bytes)
      | none => none
    | none => none

/-- `decodeContent` from `compression.ts`: the empty token decodes to the
canonical empty document; a failing attempt is caught and also yields the
canonical empty document; a successful attempt is parsed by
`parseContentData`. -/
def decodeContent (isTerminal : Bool) (encoded : String) : ContentData :=
  if encoded = "" then emptyContentData
  else
    match decodeAttempt isTerminal encoded with
    | some jsonString => parseContentData jsonString
    | none => emptyContentData

/-- Does the decompressed text parse as the structured record (an object
exposing a `content` property)?  This is the branch condition inside
`parseContentData`. -/
def parsesAsContentRecord (s : String) : Bool :=
  match jsonParse s with
  | some data => typeofIsObject data && !isJsonNull data && hasProp "content" data
  | none => false

/-! ## Budget tracking (Editor component, src/providers/google.ts) -/

/-- `URL_CHAR_LIMIT`: the fixed URL length ceiling. -/
def URL_CHAR_LIMIT : Nat := 16000

/-- The percentage computed by `saveToUrl`:
`(totalLength / URL_CHAR_LIMIT) * 100`. -/
def urlUsagePercent (totalLength : Nat) : ℚ :=
  ((totalLength : ℚ) / (URL_CHAR_LIMIT : ℚ)) * 100

/-- The observable outcome of one `saveToUrl` call. -/
structure SaveToUrlResult where
  encoded : String
  newUrl : String
  totalLength : Nat
  urlUsage : ℚ
  isLimitReached : Bool
  pushedUrl : Option String
deriving Repr

/-- `saveToUrl` from the Editor: encode the document, build the new URL
(`#token`, or the bare pathname when the token is empty), measure
`origin + pathname + newUrl`, derive the usage percentage and the
limit flag, and push the new URL only when the total length is strictly
below the ceiling (`pushedUrl = none` leaves the stale URL in place). -/
def saveToUrl (isTerminal : Bool) (origin pathname text mode : String) : SaveToUrlResult :=
  let encoded := encodeContent isTerminal text mode
  let newUrl := if encoded ≠ "" then "#" ++ encoded else pathname
  let totalLength := origin.length + pathname.length + newUrl.length
  let usage := urlUsagePercent totalLength
  { encoded := encoded
    newUrl := newUrl
    totalLength := totalLength
    urlUsage := usage
    isLimitReached := decide (100 ≤ usage)
    pushedUrl := if totalLength < URL_CHAR_LIMIT then some newUrl else none }

/-- The four usage bands of the Editor badge. -/
inductive UsageBand where
  | low
  | moderate
  | high
  | exceeded
deriving Repr, DecidableEq

/-- The badge classification from the Editor: the class-name conditions
`u < 50`, `50 ≤ u < 75`, `75 ≤ u < 100`, `100 ≤ u` on the stored usage
percentage. -/
def usageBand (urlUsage : ℚ) : UsageBand :=
  if urlUsage < 50 then .low
  else if urlUsage < 75 then .moderate
  else if urlUsage < 100 then .high
  else .exceeded

/-! ## Lemmas: characters and UTF-8 -/

theorem char_toNat_valid (c : Char) :
    c.toNat < 0xd800 ∨ (0xdfff < c.toNat ∧ c.toNat < 0x110000) := c.valid

theorem char_toNat_lt (c : Char) : c.toNat < 0x110000 := by
  rcases char_toNat_valid c with h | ⟨_, h⟩ <;> omega

theorem char_toNat_ofNat {n : Nat} (h : n.isValidChar) : (Char.ofNat n).toNat = n := by
  rw [Char.ofNat, dif_pos h]
  rfl

theorem char_toNat_ofNat_small {n : Nat} (h : n < 0xd800) : (Char.ofNat n).toNat = n :=
  char_toNat_ofNat (Or.inl h)

theorem utf8EncodeChar_lt_256 {n : Nat} (h : n < 0x110000) :
    ∀ b ∈ utf8EncodeChar n, b < 256 := by
  intro b hb
  unfold utf8EncodeChar at hb
  split_ifs at hb <;>
    simp only [List.mem_cons, List.not_mem_nil, or_false] at hb <;>
    rcases hb with rfl | rfl | rfl | rfl <;> omega

theorem utf8EncodeList_lt_256 (l : List Char) : ∀ b ∈ utf8EncodeList l, b < 256 := by
  induction l with
  | nil => intro b hb; cases hb
  | cons c cs ih =>
    intro b hb
    rw [utf8EncodeList] at hb
    rcases List.mem_append.mp hb with h | h
    · exact utf8EncodeChar_lt_256 (char_toNat_lt c) b h
    · exact ih b h

theorem utf8DecodeAux_encodeChar (c : Char) (rest : List Nat) :
    utf8DecodeAux (utf8EncodeChar c.toNat ++ rest) 0 0 = c :: utf8DecodeAux rest 0 0 := by
  have hz : (0 : Nat) = 0 := rfl
  have h10 : ¬ (1 : Nat) = 0 := by omega
  have h20 : ¬ (2 : Nat) = 0 := by omega
  have h30 : ¬ (3 : Nat) = 0 := by omega
  have h11 : (1 : Nat) = 1 := rfl
  have h21 : ¬ (2 : Nat) = 1 := by omega
  have h31 : ¬ (3 : Nat) = 1 := by omega
  by_cases h1 : c.toNat < 0x80
  · simp only [utf8EncodeChar, if_pos h1, List.cons_append, List.nil_append]
    rw [utf8DecodeAux, if_pos hz, if_pos h1, Char.ofNat_toNat]
  · by_cases h2 : c.toNat < 0x800
    · have e1 : ¬ (0xC0 + c.toNat / 64 < 0x80) := by omega
      have e2 : ¬ (0xC0 + c.toNat / 64 < 0xC0) := by omega
      have e3 : 0xC0 + c.toNat / 64 < 0xE0 := by omega
      have e4 : 0x80 ≤ 0x80 + c.toNat % 64 ∧ 0x80 + c.toNat % 64 < 0xC0 := by omega
      have harg : (0xC0 + c.toNat / 64 - 0xC0) * 64 + (0x80 + c.toNat % 64 - 0x80) = c.toNat := by
        omega
      simp only [utf8EncodeChar, if_neg h1, if_pos h2, List.cons_append, List.nil_append]
      rw [utf8DecodeAux, if_pos hz, if_neg e1, if_neg e2, if_pos e3]
      rw [utf8DecodeAux, if_neg h10, if_pos e4, if_pos h11, harg, Char.ofNat_toNat]
    · by_cases h3 : c.toNat < 0x10000
      · have e1 : ¬ (0xE0 + c.toNat / 4096 < 0x80) := by omega
        have e2 : ¬ (0xE0 + c.toNat / 4096 < 0xC0) := by omega
        have e3 : ¬ (0xE0 + c.toNat / 4096 < 0xE0) := by omega
        have e4 : 0xE0 + c.toNat / 4096 < 0xF0 := by omega
        have e5 : 0x80 ≤ 0x80 + c.toNat / 64 % 64 ∧ 0x80 + c.toNat / 64 % 64 < 0xC0 := by omega
        have e6 : 0x80 ≤ 0x80 + c.toNat % 64 ∧ 0x80 + c.toNat % 64 < 0xC0 := by omega
        have harg : ((0xE0 + c.toNat / 4096 - 0xE0) * 64 +
            (0x80 + c.toNat / 64 % 64 - 0x80)) * 64 + (0x80 + c.toNat % 64 - 0x80) = c.toNat := by
          omega
        simp only [utf8EncodeChar, if_neg h1, if_neg h2, if_pos h3, List.cons_append,
          List.nil_append]
        rw [utf8DecodeAux, if_pos hz, if_neg e1, if_neg e2, if_neg e3, if_pos e4]
        rw [utf8DecodeAux, if_neg h20, if_pos e5, if_neg h21]
        rw [utf8DecodeAux, if_neg h10, if_pos e6, if_pos h11, harg, Char.ofNat_toNat]
      · have h4 : c.toNat < 0x110000 := char_toNat_lt c
        have e1 : ¬ (0xF0 + c.toNat / 262144 < 0x80) := by omega
        have e2 : ¬ (0xF0 + c.toNat / 262144 < 0xC0) := by omega
        have e3 : ¬ (0xF0 + c.toNat / 262144 < 0xE0) := by omega
        have e4 : ¬ (0xF0 + c.toNat / 262144 < 0xF0) := by omega
        have e5 : 0xF0 + c.toNat / 262144 < 0xF8 := by omega
        have e6 : 0x80 ≤ 0x80 + c.toNat / 4096 % 64 ∧ 0x80 + c.toNat / 4096 % 64 < 0xC0 := by
          omega
        have e7 : 0x80 ≤ 0x80 + c.toNat / 64 % 64 ∧ 0x80 + c.toNat / 64 % 64 < 0xC0 := by omega
        have e8 : 0x80 ≤ 0x80 + c.toNat % 64 ∧ 0x80 + c.toNat % 64 < 0xC0 := by omega
        have harg : (((0xF0 + c.toNat / 262144 - 0xF0) * 64 +
            (0x80 + c.toNat / 4096 % 64 - 0x80)) * 64 +
            (0x80 + c.toNat / 64 % 64 - 0x80)) * 64 + (0x80 + c.toNat % 64 - 0x80) = c.toNat := by
          omega
        simp only [utf8EncodeChar, if_neg h1, if_neg h2, if_neg h3, List.cons_append,
          List.nil_append]
        rw [utf8DecodeAux, if_pos hz, if_neg e1, if_neg e2, if_neg e3, if_neg e4, if_pos e5]
        rw [utf8DecodeAux, if_neg h30, if_pos e6, if_neg h31]
        rw [utf8DecodeAux, if_neg h20, if_pos e7, if_neg h21]
        rw [utf8DecodeAux, if_neg h10, if_pos e8, if_pos h11, harg, Char.ofNat_toNat]

theorem utf8DecodeList_encodeList (l : List Char) :
    utf8DecodeList (utf8EncodeList l) = l := by
  induction l with
  | nil => rfl
  | cons c cs ih =>
    show utf8DecodeAux (utf8EncodeChar c.toNat ++ utf8EncodeList cs) 0 0 = c :: cs
    rw [utf8DecodeAux_encodeChar]
    exact congrArg (c :: ·) ih

theorem utf8DecodeStr_encode (s : String) : utf8DecodeStr (utf8Encode s) = s := by
  show String.mk (utf8DecodeList (utf8EncodeList s.data)) = s
  rw [utf8DecodeList_encodeList]

/-! ## Lemmas: base64 -/

theorem b64Val_b64Char : ∀ n, n < 64 → b64Val (b64Char n) = some n := by decide

theorem b64Char_ne_pad : ∀ n, n < 64 → ¬ b64Char n = Char.ofNat 61 := by decide

theorem b64Val_lt {c : Char} {s : Nat} (h : b64Val c = some s) : s < 64 := by
  simp only [b64Val] at h
  split_ifs at h <;> simp only [Option.some.injEq] at h <;> omega

theorem b64DecodeList_encodeList :
    ∀ l : List Nat, (∀ b ∈ l, b < 256) → b64DecodeList (b64EncodeList l) = some l := by
  intro l
  induction l using b64EncodeList.induct with
  | case1 =>
    intro _
    rfl
  | case2 a =>
    intro h
    have ha : a < 256 := h a (by simp)
    have h4 : a / 4 < 64 := by omega
    have h16 : a % 4 * 16 < 64 := by omega
    show b64DecodeList
        [b64Char (a / 4), b64Char (a % 4 * 16), Char.ofNat 61, Char.ofNat 61] = some [a]
    rw [b64DecodeList, b64Val_b64Char _ h4, b64Val_b64Char _ h16]
    dsimp only []
    rw [if_pos rfl, if_pos (And.intro rfl rfl)]
    have e1 : a / 4 * 4 + a % 4 * 16 / 16 = a := by omega
    rw [e1]
  | case3 a b =>
    intro h
    have ha : a < 256 := h a (by simp)
    have hb : b < 256 := h b (by simp)
    have h1 : a / 4 < 64 := by omega
    have h2 : a % 4 * 16 + b / 16 < 64 := by omega
    have h3 : b % 16 * 4 < 64 := by omega
    show b64DecodeList
        [b64Char (a / 4), b64Char (a % 4 * 16 + b / 16), b64Char (b % 16 * 4), Char.ofNat 61] =
      some [a, b]
    rw [b64DecodeList, b64Val_b64Char _ h1, b64Val_b64Char _ h2]
    dsimp only []
    rw [if_neg (b64Char_ne_pad _ h3), b64Val_b64Char _ h3]
    dsimp only []
    rw [if_pos rfl, if_pos rfl]
    have e1 : a / 4 * 4 + (a % 4 * 16 + b / 16) / 16 = a := by omega
    have e2 : (a % 4 * 16 + b / 16) % 16 * 16 + b % 16 * 4 / 4 = b := by omega
    rw [e1, e2]
  | case4 a b c rest ih =>
    intro h
    have ha : a < 256 := h a (by simp)
    have hb : b < 256 := h b (by simp)
    have hc : c < 256 := h c (by simp)
    have hr : ∀ x ∈ rest, x < 256 := fun x hx => h x (by simp [hx])
    have h1 : a / 4 < 64 := by omega
    have h2 : a % 4 * 16 + b / 16 < 64 := by omega
    have h3 : b % 16 * 4 + c / 64 < 64 := by omega
    have h4 : c % 64 < 64 := by omega
    show b64DecodeList (b64Char (a / 4) :: b64Char (a % 4 * 16 + b / 16) ::
        b64Char (b % 16 * 4 + c / 64) :: b64Char (c % 64) :: b64EncodeList rest) =
      some (a :: b :: c :: rest)
    rw [b64DecodeList, b64Val_b64Char _ h1, b64Val_b64Char _ h2]
    dsimp only []
    rw [if_neg (b64Char_ne_pad _ h3), b64Val_b64Char _ h3]
    dsimp only []
    rw [if_neg (b64Char_ne_pad _ h4), b64Val_b64Char _ h4]
    dsimp only []
    rw [ih hr]
    have e1 : a / 4 * 4 + (a % 4 * 16 + b / 16) / 16 = a := by omega
    have e2 : (a % 4 * 16 + b / 16) % 16 * 16 + (b % 16 * 4 + c / 64) / 4 = b := by omega
    have e3 : (b % 16 * 4 + c / 64) % 4 * 64 + c % 64 = c := by omega
    simp only [Option.map_some']
    rw [e1, e2, e3]

theorem b64EncodeList_ne_nil : ∀ {l : List Nat}, l ≠ [] → b64EncodeList l ≠ [] := by
  intro l h
  rcases l with _ | ⟨a, _ | ⟨b, _ | ⟨c, rest⟩⟩⟩
  · exact absurd rfl h
  · simp [b64EncodeList]
  · simp [b64EncodeList]
  · simp [b64EncodeList]

theorem map_toNat_map_ofNat {l : List Nat} (h : ∀ b ∈ l, b < 256) :
    (l.map Char.ofNat).map Char.toNat = l := by
  induction l with
  | nil => rfl
  | cons a t ih =>
    have ha : a < 0xd800 := by have := h a (by simp); omega
    simp only [List.map_cons, char_toNat_ofNat_small ha]
    rw [ih (fun x hx => h x (by simp [hx]))]

/-! ## Lemmas: JSON string escaping round-trips through the parser -/

theorem hexCharVal_hexDigitChar : ∀ n, n < 16 → hexCharVal (hexDigitChar n) = some n := by
  decide

theorem parseJsonStringAux_escape (cs : List Char) : ∀ rest : List Char,
    parseJsonStringAux (jsonEscapeList cs ++ '"' :: rest) 0 0 = some (cs, rest) := by
  induction cs with
  | nil =>
    intro rest
    rw [jsonEscapeList, List.nil_append, parseJsonStringAux, if_pos rfl, if_pos rfl]
  | cons c cs ih =>
    intro rest
    rw [jsonEscapeList, List.append_assoc]
    by_cases h1 : c = '"'
    · subst h1
      rw [show jsonEscapeChar '"' = ['\\', '"'] from rfl]
      rw [List.cons_append, List.cons_append, List.nil_append]
      rw [parseJsonStringAux, if_pos rfl, if_neg (by decide), if_pos rfl]
      rw [parseJsonStringAux, if_neg (by omega), if_pos rfl, if_neg (by decide)]
      rw [show jsonUnescapeChar '"' = some '"' from rfl]
      dsimp only []
      rw [ih rest]
      rfl
    · by_cases h2 : c = '\\'
      · subst h2
        rw [show jsonEscapeChar '\\' = ['\\', '\\'] from rfl]
        rw [List.cons_append, List.cons_append, List.nil_append]
        rw [parseJsonStringAux, if_pos rfl, if_neg (by decide), if_pos rfl]
        rw [parseJsonStringAux, if_neg (by omega), if_pos rfl, if_neg (by decide)]
        rw [show jsonUnescapeChar '\\' = some '\\' from rfl]
        dsimp only []
        rw [ih rest]
        rfl
      · by_cases h3 : c = '\n'
        · subst h3
          rw [show jsonEscapeChar '\n' = ['\\', 'n'] from rfl]
          rw [List.cons_append, List.cons_append, List.nil_append]
          rw [parseJsonStringAux, if_pos rfl, if_neg (by decide), if_pos rfl]
          rw [parseJsonStringAux, if_neg (by omega), if_pos rfl, if_neg (by decide)]
          rw [show jsonUnescapeChar 'n' = some '\n' from rfl]
          dsimp only []
          rw [ih rest]
          rfl
        · by_cases h4 : c = '\r'
          · subst h4
            rw [show jsonEscapeChar '\r' = ['\\', 'r'] from rfl]
            rw [List.cons_append, List.cons_append, List.nil_append]
            rw [parseJsonStringAux, if_pos rfl, if_neg (by decide), if_pos rfl]
            rw [parseJsonStringAux, if_neg (by omega), if_pos rfl, if_neg (by decide)]
            rw [show jsonUnescapeChar 'r' = some '\r' from rfl]
            dsimp only []
            rw [ih rest]
            rfl
          · by_cases h5 : c = '\t'
            · subst h5
              rw [show jsonEscapeChar '\t' = ['\\', 't'] from rfl]
              rw [List.cons_append, List.cons_append, List.nil_append]
              rw [parseJsonStringAux, if_pos rfl, if_neg (by decide), if_pos rfl]
              rw [parseJsonStringAux, if_neg (by omega), if_pos rfl, if_neg (by decide)]
              rw [show jsonUnescapeChar 't' = some '\t' from rfl]
              dsimp only []
              rw [ih rest]
              rfl
            · by_cases h6 : c = Char.ofNat 8
              · subst h6
                rw [show jsonEscapeChar (Char.ofNat 8) = ['\\', 'b'] from rfl]
                rw [List.cons_append, List.cons_append, List.nil_append]
                rw [parseJsonStringAux, if_pos rfl, if_neg (by decide), if_pos rfl]
                rw [parseJsonStringAux, if_neg (by omega), if_pos rfl, if_neg (by decide)]
                rw [show jsonUnescapeChar 'b' = some (Char.ofNat 8) from rfl]
                dsimp only []
                rw [ih rest]
                rfl
              · by_cases h7 : c = Char.ofNat 12
                · subst h7
                  rw [show jsonEscapeChar (Char.ofNat 12) = ['\\', 'f'] from rfl]
                  rw [List.cons_append, List.cons_append, List.nil_append]
                  rw [parseJsonStringAux, if_pos rfl, if_neg (by decide), if_pos rfl]
                  rw [parseJsonStringAux, if_neg (by omega), if_pos rfl, if_neg (by decide)]
                  rw [show jsonUnescapeChar 'f' = some (Char.ofNat 12) from rfl]
                  dsimp only []
                  rw [ih rest]
                  rfl
                · by_cases h8 : c.toNat < 32
                  · have hq : c.toNat / 16 < 16 := by omega
                    have hr : c.toNat % 16 < 16 := by omega
                    rw [jsonEscapeChar, if_neg h1, if_neg h2, if_neg h3, if_neg h4, if_neg h5,
                      if_neg h6, if_neg h7, if_pos h8]
                    rw [List.cons_append, List.cons_append, List.cons_append, List.cons_append,
                      List.cons_append, List.cons_append, List.nil_append]
                    rw [parseJsonStringAux, if_pos rfl, if_neg (by decide), if_pos rfl]
                    rw [parseJsonStringAux, if_neg (by omega), if_pos rfl, if_pos rfl]
                    rw [parseJsonStringAux, if_neg (by omega), if_neg (by omega)]
                    rw [show hexCharVal '0' = some 0 from rfl]
                    dsimp only []
                    rw [if_neg (by omega)]
                    rw [parseJsonStringAux, if_neg (by omega), if_neg (by omega)]
                    rw [show hexCharVal '0' = some 0 from rfl]
                    dsimp only []
                    rw [if_neg (by omega)]
                    rw [parseJsonStringAux, if_neg (by omega), if_neg (by omega)]
                    rw [hexCharVal_hexDigitChar _ hq]
                    dsimp only []
                    rw [if_neg (by omega)]
                    rw [parseJsonStringAux, if_neg (by omega), if_neg (by omega)]
                    rw [hexCharVal_hexDigitChar _ hr]
                    dsimp only []
                    rw [if_pos rfl]
                    rw [ih rest]
                    have harg : (((0 * 16 + 0) * 16 + 0) * 16 + c.toNat / 16) * 16 +
                        c.toNat % 16 = c.toNat := by omega
                    rw [harg, Char.ofNat_toNat]
                    rfl
                  · rw [jsonEscapeChar, if_neg h1, if_neg h2, if_neg h3, if_neg h4, if_neg h5,
                      if_neg h6, if_neg h7, if_neg h8]
                    rw [List.cons_append, List.nil_append]
                    rw [parseJsonStringAux, if_pos rfl, if_neg h1, if_neg h2]
                    rw [ih rest]
                    rfl

theorem parseJsonString_escape (cs rest : List Char) :
    parseJsonString (jsonEscapeList cs ++ '"' :: rest) = some (cs, rest) :=
  parseJsonStringAux_escape cs rest

/-! ## Lemmas: the serialized record parses back -/

theorem jsonQuoteList_append (cs w : List Char) :
    jsonQuoteList cs ++ w = '"' :: (jsonEscapeList cs ++ ('"' :: w)) := by
  simp [jsonQuoteList, List.append_assoc]

theorem skipWs_cons {c : Char} (t : List Char)
    (h : ¬ (c = ' ' ∨ c = '\t' ∨ c = '\n' ∨ c = '\r')) : skipWs (c :: t) = c :: t := by
  rw [skipWs, if_neg h]

theorem parseJsonValue_stringify (f : Nat) (text mode : String) :
    parseJsonValue (f + 4) (jsonStringifyContentData text mode).data =
      some (Json.obj [("content", Json.str text), ("mode", Json.str mode)], []) := by
  show parseJsonValue (f + 4)
      (braceOpen :: (jsonQuoteList "content".data ++ (':' :: (jsonQuoteList text.data ++
        (',' :: (jsonQuoteList "mode".data ++ (':' ::
          (jsonQuoteList mode.data ++ [braceClose])))))))) = _
  rw [jsonQuoteList_append, jsonQuoteList_append, jsonQuoteList_append, jsonQuoteList_append]
  rw [parseJsonValue, skipWs_cons _ (by decide)]
  dsimp only []
  rw [if_pos rfl, skipWs_cons _ (by decide)]
  dsimp only []
  rw [if_neg (by decide)]
  rw [parseJsonMembers, skipWs_cons _ (by decide)]
  dsimp only []
  rw [if_pos rfl, parseJsonString_escape]
  dsimp only []
  rw [skipWs_cons _ (by decide)]
  dsimp only []
  rw [if_pos rfl]
  rw [parseJsonValue, skipWs_cons _ (by decide)]
  dsimp only []
  rw [if_neg (by decide), if_neg (by decide), if_pos rfl, parseJsonString_escape]
  simp only [Option.map_some']
  rw [skipWs_cons _ (by decide)]
  dsimp only []
  rw [if_pos rfl]
  rw [parseJsonMembers, skipWs_cons _ (by decide)]
  dsimp only []
  rw [if_pos rfl, parseJsonString_escape]
  dsimp only []
  rw [skipWs_cons _ (by decide)]
  dsimp only []
  rw [if_pos rfl]
  rw [parseJsonValue, skipWs_cons _ (by decide)]
  dsimp only []
  rw [if_neg (by decide), if_neg (by decide), if_pos rfl, parseJsonString_escape]
  simp only [Option.map_some']
  rw [skipWs_cons _ (by decide)]
  dsimp only []
  rw [if_neg (by decide), if_pos rfl]
  rfl

theorem jsonParse_stringify (text mode : String) :
    jsonParse (jsonStringifyContentData text mode) =
      some (Json.obj [("content", Json.str text), ("mode", Json.str mode)]) := by
  rw [jsonParse]
  rw [parseJsonValue_stringify ((jsonStringifyContentData text mode).data.length) text mode]
  dsimp only []
  rw [if_pos (show skipWs [] = [] from rfl)]

/-! ## Lemmas: the codec pipeline -/

theorem parseContentData_stringify (text mode : String) (hm : mode ≠ "") :
    parseContentData (jsonStringifyContentData text mode) = ⟨Json.str text, Json.str mode⟩ := by
  rw [parseContentData, jsonParse_stringify]
  dsimp only []
  have hcond : (typeofIsObject (Json.obj [("content", Json.str text), ("mode", Json.str mode)]) &&
      !isJsonNull (Json.obj [("content", Json.str text), ("mode", Json.str mode)]) &&
      hasProp "content" (Json.obj [("content", Json.str text), ("mode", Json.str mode)])) =
      true := rfl
  rw [if_pos hcond]
  have h1 : jsOrDefault (getProp "content"
      (Json.obj [("content", Json.str text), ("mode", Json.str mode)])) (Json.str "") =
      Json.str text := by
    rw [show getProp "content"
        (Json.obj [("content", Json.str text), ("mode", Json.str mode)]) =
        some (Json.str text) from rfl]
    by_cases ht : text = ""
    · subst ht; rfl
    · simp [jsOrDefault, jsTruthy, ht]
  have h2 : jsOrDefault (getProp "mode"
      (Json.obj [("content", Json.str text), ("mode", Json.str mode)])) (Json.str "edit") =
      Json.str mode := by
    rw [show getProp "mode"
        (Json.obj [("content", Json.str text), ("mode", Json.str mode)]) =
        some (Json.str mode) from rfl]
    simp [jsOrDefault, jsTruthy, hm]
  rw [h1, h2]

theorem gzipCompress_utf8_lt_256 (s : String) :
    ∀ b ∈ gzipCompress (utf8Encode s), b < 256 := by
  intro b hb
  rw [gzipCompress] at hb
  rcases hb with _ | ⟨_, hb⟩
  · omega
  · rcases hb with _ | ⟨_, hb⟩
    · omega
    · exact utf8EncodeList_lt_256 _ b hb

theorem encodeAttempt_eq (it : Bool) (text mode : String) :
    encodeAttempt it text mode =
      some (base64Encode (gzipCompress (utf8Encode (jsonStringifyContentData text mode)))) := by
  cases it
  · show btoa (binaryStringOfBytes (gzipCompress (utf8Encode _))) = _
    have hb := gzipCompress_utf8_lt_256 (jsonStringifyContentData text mode)
    rw [btoa]
    rw [if_pos ?hall]
    case hall =>
      show (List.map Char.ofNat _).all _ = true
      rw [List.all_eq_true]
      intro c hc
      obtain ⟨b, hbm, rfl⟩ := List.mem_map.mp hc
      have hbig : b < 0xd800 := by have := hb b hbm; omega
      have hlt := hb b hbm
      simp [char_toNat_ofNat_small hbig]
      omega
    show some (String.mk (b64EncodeList ((List.map Char.ofNat _).map Char.toNat))) = _
    rw [map_toNat_map_ofNat hb]
    rfl
  · rfl

theorem base64Encode_gzip_ne_empty (bs : List Nat) :
    base64Encode (gzipCompress bs) ≠ "" := by
  show String.mk (b64EncodeList (31 :: 139 :: bs)) ≠ ""
  rcases bs with _ | ⟨c, rest⟩ <;> simp [b64EncodeList, String.ext_iff]

theorem decodeAttempt_token (it : Bool) (S : String) :
    decodeAttempt it (base64Encode (gzipCompress (utf8Encode S))) = some S := by
  have hb := gzipCompress_utf8_lt_256 S
  have hrt : b64DecodeList (b64EncodeList (gzipCompress (utf8Encode S))) =
      some (gzipCompress (utf8Encode S)) := b64DecodeList_encodeList _ hb
  cases it
  · show (match atob (base64Encode (gzipCompress (utf8Encode S))) with
      | some binaryString =>
        match gzipDecompress (binaryString.data.map Char.toNat) with
        | some bytes => some (utf8DecodeStr bytes)
        | none => none
      | none => none) = some S
    rw [atob]
    rw [show (base64Encode (gzipCompress (utf8Encode S))).data =
        b64EncodeList (gzipCompress (utf8Encode S)) from rfl]
    rw [hrt]
    simp only [Option.map_some']
    show (match gzipDecompress ((List.map Char.ofNat (gzipCompress (utf8Encode S))).map
        Char.toNat) with
      | some bytes => some (utf8DecodeStr bytes)
      | none => none) = some S
    rw [map_toNat_map_ofNat hb]
    rw [show gzipDecompress (gzipCompress (utf8Encode S)) = some (utf8Encode S) from rfl]
    dsimp only []
    rw [utf8DecodeStr_encode]
  · show (match base64Decode (base64Encode (gzipCompress (utf8Encode S))) with
      | some compressed =>
        match gzipDecompress compressed with
        | some decompressed => some (utf8DecodeStr decompressed)
        | none => none
      | none => none) = some S
    rw [show base64Decode (base64Encode (gzipCompress (utf8Encode S))) =
        b64DecodeList (b64EncodeList (gzipCompress (utf8Encode S))) from rfl]
    rw [hrt]
    dsimp only []
    rw [show gzipDecompress (gzipCompress (utf8Encode S)) = some (utf8Encode S) from rfl]
    dsimp only []
    rw [utf8DecodeStr_encode]

theorem decodeContent_token (it : Bool) (S : String) :
    decodeContent it (base64Encode (gzipCompress (utf8Encode S))) = parseContentData S := by
  rw [decodeContent, if_neg (base64Encode_gzip_ne_empty _), decodeAttempt_token]

theorem encodeContent_eq (it : Bool) (text mode : String) (h : ¬ (text = "" ∧ mode = "edit")) :
    encodeContent it text mode =
      base64Encode (gzipCompress (utf8Encode (jsonStringifyContentData text mode))) := by
  rw [encodeContent, if_neg h, encodeAttempt_eq]
  rfl

/-! ## Claim theorems -/

/-- C1: for every Document — arbitrary Unicode content string `s` and
mode `m` one of the three wire names — decoding the token produced by
encoding it yields the same Document (as a run-time record), in either
environment branch; this includes the canonical empty Edit-mode document,
whose empty token decodes back to itself. -/
theorem decode_encode_roundtrip (it it' : Bool) (s m : String) (hm : isPreviewMode m) :
    decodeContent it (encodeContent it' s m) = ⟨Json.str s, Json.str m⟩ := by
  have hm' : m ≠ "" := by
    rcases hm with h | h | h <;> subst h <;> decide
  by_cases h : s = "" ∧ m = "edit"
  · obtain ⟨hs, hmd⟩ := h
    subst hs
    subst hmd
    rw [encodeContent, if_pos ⟨rfl, rfl⟩, decodeContent, if_pos rfl]
    rfl
  · rw [encodeContent_eq it' s m h, decodeContent_token,
      parseContentData_stringify s m hm']

/-- Witness for C1 at a concrete multi-byte document in Split (`live`)
mode, encoded by the browser branch and decoded by the Node branch. -/
theorem decode_encode_roundtrip_witness :
    isPreviewMode "live" ∧
      decodeContent true (encodeContent false "a\né✓" "live") =
        ⟨Json.str "a\né✓", Json.str "live"⟩ :=
  ⟨Or.inr (Or.inl rfl),
    decode_encode_roundtrip true false "a\né✓" "live" (Or.inr (Or.inl rfl))⟩

/-- C2: `decodeContent` is a total function, and whenever the
base64/gunzip pipeline of the try block fails the catch returns the
canonical empty Edit-mode document. -/
theorem decode_swallows_failure (it : Bool) (s : String) (h : decodeAttempt it s = none) :
    decodeContent it s = emptyContentData := by
  rw [decodeContent]
  by_cases hs : s = ""
  · rw [if_pos hs]
  · rw [if_neg hs, h]

/-- Witness for C2: `"AAAA"` is valid base64 but not a gzip stream, so
its decode attempt fails and the decoder returns the empty document. -/
theorem decode_swallows_failure_witness :
    decodeAttempt true "AAAA" = none ∧ decodeContent true "AAAA" = emptyContentData :=
  ⟨rfl, decode_swallows_failure true "AAAA" rfl⟩

/-- C3: a token built as `base64(gzip(utf8(s)))` from a text `s` that
does not parse as the structured record decodes to the text itself,
verbatim, with mode forced to `edit` (the legacy path). -/
theorem decode_legacy_token (it : Bool) (s : String) (h : parsesAsContentRecord s = false) :
    decodeContent it (base64Encode (gzipCompress (utf8Encode s))) =
      ⟨Json.str s, Json.str "edit"⟩ := by
  rw [decodeContent_token]
  rw [parsesAsContentRecord] at h
  rw [parseContentData]
  cases hj : jsonParse s with
  | none => rfl
  | some data =>
    rw [hj] at h
    dsimp only [] at h ⊢
    rw [if_neg]
    simp [h]

/-- Witness for C3: the plain text `"# Hello\nWorld"` is not valid JSON,
and its legacy token decodes to the text verbatim in Edit mode. -/
theorem decode_legacy_token_witness :
    parsesAsContentRecord "# Hello\nWorld" = false ∧
      decodeContent true (base64Encode (gzipCompress (utf8Encode "# Hello\nWorld"))) =
        ⟨Json.str "# Hello\nWorld", Json.str "edit"⟩ :=
  ⟨rfl, decode_legacy_token true "# Hello\nWorld" rfl⟩

/-- C4: the decompressed text `{"content":5,"mode":"bogus"}` parses as a
record exposing a `content` field, yet `decodeContent` returns the
number `5` as content (not the empty string the claim requires for a
non-string value) and the string `"bogus"` as mode (not `edit`, although
`bogus` is not one of the wire names): `parseContentData` copies the
fields through `|| `-defaulting without the type/membership checks the
claim describes, so the declared `ContentData` interface is violated at
run time. -/
theorem decode_untyped_record_fields :
    parsesAsContentRecord "\x7b\"content\":5,\"mode\":\"bogus\"\x7d" = true ∧
      decodeContent true (base64Encode (gzipCompress (utf8Encode
        "\x7b\"content\":5,\"mode\":\"bogus\"\x7d"))) = ⟨Json.num 5, Json.str "bogus"⟩ ∧
      Json.num 5 ≠ Json.str "" ∧ Json.str "bogus" ≠ Json.str "edit" := by
  refine ⟨rfl, ?_, by simp, by simp⟩
  rw [decodeContent_token]
  rfl

/-- C5: the empty-document shortcut — `encodeContent` yields the empty
token exactly for the canonical empty Edit-mode document, and the empty
token decodes to that document. -/
theorem empty_document_shortcut (it : Bool) (s m : String) :
    (encodeContent it s m = "" ↔ s = "" ∧ m = "edit") ∧
      decodeContent it "" = emptyContentData := by
  constructor
  · constructor
    · intro h
      by_contra hne
      rw [encodeContent_eq it s m hne] at h
      exact base64Encode_gzip_ne_empty _ h
    · rintro ⟨hs, hmd⟩
      subst hs
      subst hmd
      rw [encodeContent, if_pos ⟨rfl, rfl⟩]
  · rw [decodeContent, if_pos rfl]

/-- C6: encode never propagates an internal failure — the catch clause
(`swallowEncodeFailure`) maps a failed attempt to the empty token, and
`encodeContent` routes every non-shortcut document through it, so a
failing attempt yields the empty token rather than an exception. -/
theorem encode_swallows_failure (a : Option String) (h : a = none) :
    swallowEncodeFailure a = "" ∧
      ∀ (it : Bool) (t m : String), encodeAttempt it t m = none →
        encodeContent it t m = "" := by
  constructor
  · rw [h]
    rfl
  · intro it t m ha
    rw [encodeContent]
    by_cases hsc : t = "" ∧ m = "edit"
    · rw [if_pos hsc]
    · rw [if_neg hsc, ha]
      rfl

/-- Witness for C6 at the failed attempt itself. -/
theorem encode_swallows_failure_witness : swallowEncodeFailure none = "" :=
  (encode_swallows_failure none rfl).1

/-- C10: the Node (zlib) branch and the browser
(CompressionStream/btoa) branch of the codec are observationally
equivalent — for every document the two encoders' tokens decode to the
same record under either decoder branch. -/
theorem encode_branches_equivalent (it it' : Bool) (s m : String) :
    decodeContent it (encodeContent true s m) = decodeContent it' (encodeContent false s m) := by
  by_cases h : s = "" ∧ m = "edit"
  · obtain ⟨hs, hmd⟩ := h
    subst hs
    subst hmd
    rw [encodeContent, if_pos ⟨rfl, rfl⟩, encodeContent, if_pos ⟨rfl, rfl⟩]
    rw [decodeContent, if_pos rfl, decodeContent, if_pos rfl]
  · rw [encodeContent_eq true s m h, encodeContent_eq false s m h]
    rw [decodeContent_token, decodeContent_token]

/-! ## Claim theorems: budget tracking -/

theorem urlUsagePercent_ge_100 (T : Nat) : 100 ≤ urlUsagePercent T ↔ URL_CHAR_LIMIT ≤ T := by
  rw [urlUsagePercent, URL_CHAR_LIMIT]
  push_cast
  rw [div_mul_eq_mul_div, le_div_iff₀ (by norm_num : (0 : ℚ) < 16000)]
  constructor
  · intro h
    have : (16000 : ℚ) ≤ (T : ℚ) := by linarith
    exact_mod_cast this
  · intro h
    have : (16000 : ℚ) ≤ (T : ℚ) := by exact_mod_cast h
    linarith

/-- C7 counterexample: with origin `https://x`, pathname `/ab` and the
empty token (the empty Edit-mode document), the tracker measures
`origin + pathname + pathname = 15` characters because the new URL is
the bare pathname, while the claimed formula
`fixedPrefixLength + 1 + length(token)` gives `13`. -/
theorem budget_usedChars_empty_token_counterexample :
    (saveToUrl true "https://x" "/ab" "" "edit").totalLength = 15 ∧
      "https://x".length + "/ab".length + 1 + (encodeContent true "" "edit").length = 13 ∧
      (15 : Nat) ≠ 13 :=
  ⟨rfl, rfl, by omega⟩

/-- C7 (amended): for every nonempty produced token the tracker computes
`usedChars = fixedPrefixLength + 1 + length(token)`; for the empty token
the new URL is the bare pathname, so
`usedChars = originLength + 2 * pathnameLength`; in both cases the
stored usage is the percentage `(usedChars / 16000) * 100`. -/
theorem budget_usedChars_formula (it : Bool) (origin pathname text mode : String) :
    ((encodeContent it text mode ≠ "") →
      (saveToUrl it origin pathname text mode).totalLength =
        origin.length + pathname.length + 1 + (encodeContent it text mode).length) ∧
    ((encodeContent it text mode = "") →
      (saveToUrl it origin pathname text mode).totalLength =
        origin.length + pathname.length + pathname.length) ∧
    (saveToUrl it origin pathname text mode).urlUsage =
      urlUsagePercent (saveToUrl it origin pathname text mode).totalLength := by
  refine ⟨?_, ?_, rfl⟩
  · intro h
    show origin.length + pathname.length +
        (if encodeContent it text mode ≠ "" then "#" ++ encodeContent it text mode
          else pathname).length = _
    rw [if_pos h, String.length_append]
    show origin.length + pathname.length + (1 + (encodeContent it text mode).length) = _
    omega
  · intro h
    show origin.length + pathname.length +
        (if encodeContent it text mode ≠ "" then "#" ++ encodeContent it text mode
          else pathname).length = _
    rw [if_neg (by simp [h])]

/-- Witness for C7 at a nonempty token (`"x"` in Edit mode) and at the
empty token. -/
theorem budget_usedChars_formula_witness :
    (saveToUrl true "https://e.com" "/" "x" "edit").totalLength =
      "https://e.com".length + "/".length + 1 + (encodeContent true "x" "edit").length ∧
    (saveToUrl true "https://e.com" "/" "" "edit").totalLength =
      "https://e.com".length + "/".length + "/".length :=
  ⟨(budget_usedChars_formula true "https://e.com" "/" "x" "edit").1 (by decide),
   (budget_usedChars_formula true "https://e.com" "/" "" "edit").2.1 rfl⟩

/-- C8: when the computed total URL length reaches the 16000-character
ceiling the limit flag is set and the new URL is never written (the
stale URL is left in place); a write, when it happens, stores the full
untruncated new URL and occurs only when the total length is strictly
below the ceiling. -/
theorem write_suppressed_when_exceeded (it : Bool) (origin pathname text mode : String) :
    ((saveToUrl it origin pathname text mode).isLimitReached = true →
      (saveToUrl it origin pathname text mode).pushedUrl = none) ∧
    ((saveToUrl it origin pathname text mode).pushedUrl = none ∨
      (saveToUrl it origin pathname text mode).pushedUrl =
        some (saveToUrl it origin pathname text mode).newUrl) ∧
    (∀ u, (saveToUrl it origin pathname text mode).pushedUrl = some u →
      (saveToUrl it origin pathname text mode).totalLength < URL_CHAR_LIMIT) := by
  refine ⟨?_, ?_, ?_⟩
  · intro h
    have hge : URL_CHAR_LIMIT ≤ (saveToUrl it origin pathname text mode).totalLength := by
      have := of_decide_eq_true h
      exact (urlUsagePercent_ge_100 _).mp this
    show (if (saveToUrl it origin pathname text mode).totalLength < URL_CHAR_LIMIT
        then some (saveToUrl it origin pathname text mode).newUrl else none) = none
    rw [if_neg (by omega)]
  · show (if (saveToUrl it origin pathname text mode).totalLength < URL_CHAR_LIMIT
        then some (saveToUrl it origin pathname text mode).newUrl else none) = none ∨
      (if (saveToUrl it origin pathname text mode).totalLength < URL_CHAR_LIMIT
        then some (saveToUrl it origin pathname text mode).newUrl else none) =
        some (saveToUrl it origin pathname text mode).newUrl
    by_cases hT : (saveToUrl it origin pathname text mode).totalLength < URL_CHAR_LIMIT
    · right
      rw [if_pos hT]
    · left
      rw [if_neg hT]
  · intro u hu
    by_contra hT
    have : (saveToUrl it origin pathname text mode).pushedUrl = none := by
      show (if (saveToUrl it origin pathname text mode).totalLength < URL_CHAR_LIMIT
          then some (saveToUrl it origin pathname text mode).newUrl else none) = none
      rw [if_neg hT]
    rw [this] at hu
    exact Option.noConfusion hu

/-- Witness for C8: with a 16000-character origin the limit flag is set
and the URL write is suppressed. -/
theorem write_suppressed_when_exceeded_witness :
    (saveToUrl true (String.mk (List.replicate 16000 'a')) "/" "" "edit").pushedUrl = none := by
  have hreach :
      (saveToUrl true (String.mk (List.replicate 16000 'a')) "/" "" "edit").isLimitReached =
        true := by
    have hT : (saveToUrl true (String.mk (List.replicate 16000 'a')) "/" "" "edit").totalLength =
        16002 := by
      show (String.mk (List.replicate 16000 'a')).length + "/".length +
        (if encodeContent true "" "edit" ≠ "" then "#" ++ encodeContent true "" "edit"
          else "/").length = 16002
      rw [if_neg (by simp [encodeContent])]
      rw [show (String.mk (List.replicate 16000 'a')).length = 16000 from
        List.length_replicate 16000 'a']
      rfl
    show decide (100 ≤ urlUsagePercent
      ((saveToUrl true (String.mk (List.replicate 16000 'a')) "/" "" "edit").totalLength)) = true
    rw [hT, decide_eq_true_eq]
    exact (urlUsagePercent_ge_100 16002).mpr (by norm_num [URL_CHAR_LIMIT])
  exact (write_suppressed_when_exceeded true
    (String.mk (List.replicate 16000 'a')) "/" "" "edit").1 hreach

/-- C9: the four-band classification of a usage ratio `r = total/16000`
is `low` on `[0, 1/2)`, `moderate` on `[1/2, 3/4)`, `high` on `[3/4, 1)`
and `exceeded` on `[1, ∞)`; a total URL length of 8500 classifies as
`moderate`, a total of 16500 classifies as `exceeded`, and 16500 also
triggers the write-suppression comparison. -/
theorem usage_band_classification (total : Nat) :
    ((usageBand (urlUsagePercent total) = UsageBand.low ↔ (total : ℚ) / 16000 < 1 / 2) ∧
     (usageBand (urlUsagePercent total) = UsageBand.moderate ↔
       1 / 2 ≤ (total : ℚ) / 16000 ∧ (total : ℚ) / 16000 < 3 / 4) ∧
     (usageBand (urlUsagePercent total) = UsageBand.high ↔
       3 / 4 ≤ (total : ℚ) / 16000 ∧ (total : ℚ) / 16000 < 1) ∧
     (usageBand (urlUsagePercent total) = UsageBand.exceeded ↔ 1 ≤ (total : ℚ) / 16000)) ∧
    usageBand (urlUsagePercent 8500) = UsageBand.moderate ∧
    usageBand (urlUsagePercent 16500) = UsageBand.exceeded ∧
    ¬ (16500 : Nat) < URL_CHAR_LIMIT := by
  have hu : urlUsagePercent total = (total : ℚ) / 16000 * 100 := by
    rw [urlUsagePercent, URL_CHAR_LIMIT]
    push_cast
    ring
  have h50 : urlUsagePercent total < 50 ↔ (total : ℚ) / 16000 < 1 / 2 := by
    rw [hu]
    constructor <;> intro h <;> linarith
  have h75 : urlUsagePercent total < 75 ↔ (total : ℚ) / 16000 < 3 / 4 := by
    rw [hu]
    constructor <;> intro h <;> linarith
  have h100 : urlUsagePercent total < 100 ↔ (total : ℚ) / 16000 < 1 := by
    rw [hu]
    constructor <;> intro h <;> linarith
  refine ⟨?_, ?_, ?_, by decide⟩
  case refine_2 =>
    rw [show urlUsagePercent 8500 = 425 / 8 from by
      rw [urlUsagePercent, URL_CHAR_LIMIT]; norm_num]
    rw [usageBand, if_neg (by norm_num), if_pos (by norm_num)]
  case refine_3 =>
    rw [show urlUsagePercent 16500 = 825 / 8 from by
      rw [urlUsagePercent, URL_CHAR_LIMIT]; norm_num]
    rw [usageBand, if_neg (by norm_num), if_neg (by norm_num), if_neg (by norm_num)]
  by_cases c1 : urlUsagePercent total < 50
  · have hr : (total : ℚ) / 16000 < 1 / 2 := h50.mp c1
    rw [usageBand, if_pos c1]
    exact ⟨iff_of_true rfl hr,
      iff_of_false (by decide) (fun h => by linarith [h.1]),
      iff_of_false (by decide) (fun h => by linarith [h.1]),
      iff_of_false (by decide) (fun h => by linarith)⟩
  · have hr1 : 1 / 2 ≤ (total : ℚ) / 16000 := by
      by_contra hlt
      exact c1 (h50.mpr (by linarith))
    by_cases c2 : urlUsagePercent total < 75
    · have hr : (total : ℚ) / 16000 < 3 / 4 := h75.mp c2
      rw [usageBand, if_neg c1, if_pos c2]
      exact ⟨iff_of_false (by decide) (fun h => by linarith),
        iff_of_true rfl ⟨hr1, hr⟩,
        iff_of_false (by decide) (fun h => by linarith [h.1]),
        iff_of_false (by decide) (fun h => by linarith)⟩
    · have hr2 : 3 / 4 ≤ (total : ℚ) / 16000 := by
        by_contra hlt
        exact c2 (h75.mpr (by linarith))
      by_cases c3 : urlUsagePercent total < 100
      · have hr : (total : ℚ) / 16000 < 1 := h100.mp c3
        rw [usageBand, if_neg c1, if_neg c2, if_pos c3]
        exact ⟨iff_of_false (by decide) (fun h => by linarith),
          iff_of_false (by decide) (fun h => by linarith [h.2]),
          iff_of_true rfl ⟨hr2, hr⟩,
          iff_of_false (by decide) (fun h => by linarith)⟩
      · have hr3 : 1 ≤ (total : ℚ) / 16000 := by
          by_contra hlt
          exact c3 (h100.mpr (by linarith))
        rw [usageBand, if_neg c1, if_neg c2, if_neg c3]
        exact ⟨iff_of_false (by decide) (fun h => by linarith),
          iff_of_false (by decide) (fun h => by linarith [h.2]),
          iff_of_false (by decide) (fun h => by linarith [h.2]),
          iff_of_true rfl hr3⟩

end AriaMark
